import Mathlib

/-
Verification development for the yosys-perf driver (thing.py, with
analyze.py as the older near-identical revision).

The embedding models the pure data-transformation core:
  - the log parser (parse_stat): statistics-section location, labeled
    metric lines with the derived short-format fallback, the per-cell-type
    breakdown scan, the CPU/MEM footer, the "Time spent:" summary, the
    ABC node/level scan, and parse_abc_area;
  - tag formation (fmt_params / tag_for);
  - the cell taxonomy (load_cell_groups / dump_cell_groups) and the
    classifier (classify_cells);
  - the ff-mode result computation (run_mode_ff) and its human renderer
    (HumanOut.add_ff);
  - the tabular renderers (CsvOut.add_stats / CsvOut.out in thing.py and
    print_csv in analyze.py).

Modelling conventions:
  - raw tool output is a list of lines (the source regexes are anchored
    per line via re.MULTILINE, or use patterns that cannot cross a line
    break on the inputs considered here);
  - Python dicts are association lists with update-in-place-or-append
    assignment (dset) and first-match lookup (dget), so keys stay unique
    when built by dset;
  - Python floats are modelled as rationals; printf-style fixed-point
    formatting is modelled by fmtFixed (the claims never depend on float
    rounding ties);
  - subprocess / file-system effects are modelled by explicit outcome
    values (DumpOutcome).
-/

namespace YP

/-! ## Python dict as an association list -/

/-- Python dict assignment d[k] = v: update in place if the key exists,
otherwise append. -/
def dset {κ α : Type} [DecidableEq κ] (m : List (κ × α)) (k : κ) (v : α) :
    List (κ × α) :=
  match m with
  | [] => [(k, v)]
  | (k', v') :: rest =>
    if k' = k then (k', v) :: rest else (k', v') :: dset rest k v

/-- Python dict lookup d.get(k): first matching key. -/
def dget {κ α : Type} [DecidableEq κ] (m : List (κ × α)) (k : κ) : Option α :=
  match m with
  | [] => none
  | (k', v') :: rest => if k' = k then some v' else dget rest k

/-! ## Character classes and scanning helpers (models of the regexes) -/

/-- Python regex class backslash-s over ASCII. -/
def isWS (c : Char) : Bool :=
  c = ' ' || c = '\t' || c = '\n' || c = '\r' || c = '\x0b' || c = '\x0c'

/-- Python regex word character (ASCII). -/
def isWordChar (c : Char) : Bool := c.isAlphanum || c = '_'

def natOfDigits (ds : List Char) : Nat :=
  ds.foldl (fun n c => n * 10 + (c.toNat - 48)) 0

/-- Value of a run of digit-or-dot characters, as Python float() reads the
match of a digits-and-dots pattern (inputs here carry at most one dot). -/
def decOfChars (ds : List Char) : ℚ :=
  let ip := ds.takeWhile (fun c => c ≠ '.')
  let fp := (ds.dropWhile (fun c => c ≠ '.')).drop 1
  (natOfDigits ip : ℚ) + (natOfDigits fp : ℚ) / (10 : ℚ) ^ fp.length

/-- Expect a literal token at the head of the character stream. -/
def expectTok (tok : String) (cs : List Char) : Option (List Char) :=
  if tok.toList.isPrefixOf cs then some (cs.drop tok.length) else none

/-- One-or-more whitespace characters. -/
def expectWS1 (cs : List Char) : Option (List Char) :=
  let p := cs.span isWS
  if p.1.isEmpty then none else some p.2

/-- One-or-more digits. -/
def takeDigits (cs : List Char) : Option (List Char × List Char) :=
  let p := cs.span Char.isDigit
  if p.1.isEmpty then none else some (p.1, p.2)

/-- One-or-more digit-or-dot characters, read as a rational. -/
def takeDec (cs : List Char) : Option (ℚ × List Char) :=
  let p := cs.span (fun c => c.isDigit || c = '.')
  if p.1.isEmpty then none else some (decOfChars p.1, p.2)

/-- Drop through the first occurrence of sub, returning the remainder
after it (models a lazy leading context in a regex search). -/
def dropAfterSub : List Char → List Char → Option (List Char)
  | [], sub => if sub.isEmpty then some [] else none
  | c :: t, sub =>
    if sub.isPrefixOf (c :: t) then some ((c :: t).drop sub.length)
    else dropAfterSub t sub

def containsSubstr (hay sub : List Char) : Bool :=
  match hay with
  | [] => sub.isEmpty
  | c :: t => sub.isPrefixOf (c :: t) || containsSubstr t sub

def firstSome {α β : Type} (f : α → Option β) : List α → Option β
  | [] => none
  | a :: rest =>
    match f a with
    | some b => some b
    | none => firstSome f rest

/-! ## parse_stat (thing.py lines 213-295) -/

/-- One line of the per-cell-type usage table.  Models the MULTILINE
regex built from one-or-more whitespace, a captured non-whitespace
token, one-or-more whitespace, captured digits, then optional trailing
whitespace up to end of line. -/
def lineCellMatch (line : String) : Option (String × Nat) :=
  let cs := line.toList
  let p1 := cs.span isWS
  let p2 := p1.2.span (fun c => !(isWS c))
  let p3 := p2.2.span isWS
  let p4 := p3.2.span Char.isDigit
  let p5 := p4.2.span isWS
  if p1.1 ≠ [] ∧ p2.1 ≠ [] ∧ p3.1 ≠ [] ∧ p4.1 ≠ [] ∧ p5.2 = [] then
    some (String.mk p2.1, natOfDigits p4.1)
  else none

/-- A labeled numeric line: optional leading whitespace, the literal
label, one-or-more whitespace, captured digits, optional trailing
whitespace up to end of line.  Used both for the verbose labels
("Number of wires:") and for the short labels the source derives by text
substitution on the verbose pattern (for example "wires": the derived
pattern keeps the label-before-number shape). -/
def lineLabelNum (label : String) (line : String) : Option Nat :=
  let r1 := line.toList.dropWhile isWS
  if label.toList.isPrefixOf r1 then
    let r2 := r1.drop label.length
    let p3 := r2.span isWS
    let p4 := p3.2.span Char.isDigit
    let p5 := p4.2.span isWS
    if p3.1 ≠ [] ∧ p4.1 ≠ [] ∧ p5.2 = [] then some (natOfDigits p4.1)
    else none
  else none

/-- The number-first short-format line ("   12 wires") as matched by the
explicit terse patterns of analyze.py parse_output: optional leading
whitespace, captured digits, one-or-more whitespace, the literal label,
optional trailing whitespace. -/
def lineNumLabel (label : String) (line : String) : Option Nat :=
  let r1 := line.toList.dropWhile isWS
  let p2 := r1.span Char.isDigit
  let p3 := p2.2.span isWS
  if p2.1 ≠ [] ∧ p3.1 ≠ [] ∧ label.toList.isPrefixOf p3.2 then
    let r4 := p3.2.drop label.length
    if r4.dropWhile isWS = [] then some (natOfDigits p2.1) else none
  else none

/-- Search the summary for a metric: first the verbose labeled form, and
only if that matches nowhere, the derived short form.  The short label
is the verbose label with "Number of " and the trailing colon removed,
exactly what the source's pattern.replace derivation produces. -/
def findMetric (summary : List String) (label short : String) : Option Nat :=
  match firstSome (lineLabelNum label) summary with
  | some n => some n
  | none => firstSome (lineLabelNum short) summary

/-- Locate the statistics block: primary marker first, terse marker as
fallback; the block closes at "End of script" or at end of output. -/
def dropToMarker (marker : String) : List String → Option (List String)
  | [] => none
  | l :: rest =>
    if containsSubstr l.toList marker.toList then some rest
    else dropToMarker marker rest

def takeToEndOfScript (lines : List String) : List String :=
  lines.takeWhile (fun l => !(containsSubstr l.toList "End of script".toList))

def statSection (output : List String) : Option (List String) :=
  match dropToMarker "+----------Count including submodules." output with
  | some rest => some (takeToEndOfScript rest)
  | none =>
    match dropToMarker "Printing statistics." output with
    | some rest => some (takeToEndOfScript rest)
    | none => none

/-- The per-cell-type usage scan: each matching line is written into the
dict with plain assignment, so a duplicate token is overwritten, not
accumulated. -/
def scanCells (summary : List String) : List (String × Nat) :=
  summary.foldl
    (fun cells l =>
      match lineCellMatch l with
      | some nc => dset cells nc.1 nc.2
      | none => cells)
    []

/-- The CPU/MEM footer: "CPU: user Us system Ss ... MEM: M MB". -/
def cpuLineMatch (line : String) : Option (ℚ × ℚ × ℚ) := do
  let r0 ← dropAfterSub line.toList "CPU:".toList
  let r1 := r0.dropWhile isWS
  let r2 ← expectTok "user" r1
  let r3 ← expectWS1 r2
  let (u, r4) ← takeDec r3
  let r5 ← expectTok "s" r4
  let r6 ← expectWS1 r5
  let r7 ← expectTok "system" r6
  let r8 ← expectWS1 r7
  let (s, r9) ← takeDec r8
  let r10 ← expectTok "s" r9
  let r11 ← dropAfterSub r10 "MEM:".toList
  let r12 := r11.dropWhile isWS
  let (m, r13) ← takeDec r12
  let r14 := r13.dropWhile isWS
  let _ ← expectTok "MB" r14
  pure (u, s, m)

/-- The tail of the first "Time spent:" line that has at least one
character after the label on the same line (the source pattern demands a
nonempty lazy group before the end of the line, so a bare label line
does not match and the search continues). -/
def timeSpentTail : List String → Option (List Char)
  | [] => none
  | l :: rest =>
    match dropAfterSub l.toList "Time spent:".toList with
    | some t => if t.isEmpty then timeSpentTail rest else some t
    | none => timeSpentTail rest

/-- One "P% Nx name (S sec)" time consumer entry, tried at the current
position; returns (name, pct, count, secs) in the tuple order the source
appends. -/
def matchTripleAt (cs : List Char) : Option ((String × Nat × Nat × Nat) × List Char) := do
  let (pctd, r1) ← takeDigits cs
  let r2 ← expectTok "%" r1
  let r3 ← expectWS1 r2
  let (cntd, r4) ← takeDigits r3
  let r5 ← expectTok "x" r4
  let r6 ← expectWS1 r5
  let pw := r6.span isWordChar
  if pw.1.isEmpty then none
  else do
    let r8 := pw.2.dropWhile isWS
    let r9 ← expectTok "(" r8
    let (secd, r10) ← takeDigits r9
    let r11 := r10.dropWhile isWS
    let r12 ← expectTok "sec)" r11
    pure ((String.mk pw.1, natOfDigits pctd, natOfDigits cntd, natOfDigits secd), r12)

def scanTriplesGo : Nat → List Char → List (String × Nat × Nat × Nat)
  | 0, _ => []
  | _ + 1, [] => []
  | n + 1, c :: t =>
    match matchTripleAt (c :: t) with
    | some (tr, rest) => tr :: scanTriplesGo n rest
    | none => scanTriplesGo n t

def scanTriples (cs : List Char) : List (String × Nat × Nat × Nat) :=
  scanTriplesGo cs.length cs

/-- First position at which key, optional whitespace, "=", optional
whitespace, digits matches; models the lazy scan up to "nd =" / "lev =". -/
def findKeyEqNum (key : String) : List Char → Option (Nat × List Char)
  | [] => none
  | c :: t =>
    match (do
      let r1 ← expectTok key (c :: t)
      let r2 := r1.dropWhile isWS
      let r3 ← expectTok "=" r2
      let r4 := r3.dropWhile isWS
      let (d, r5) ← takeDigits r4
      pure (natOfDigits d, r5) : Option (Nat × List Char)) with
    | some res => some res
    | none => findKeyEqNum key t

/-- One ABC node/level statistics match within a line. -/
def matchAbcFrom (cs : List Char) : Option ((Nat × Nat) × List Char) := do
  let r0 ← dropAfterSub cs "ABC:".toList
  let (nd, r1) ← findKeyEqNum "nd" r0
  let (lev, r2) ← findKeyEqNum "lev" r1
  pure ((nd, lev), r2)

def scanAbcGo : Nat → List Char → List (Nat × Nat)
  | 0, _ => []
  | n + 1, cs =>
    match matchAbcFrom cs with
    | some (p, rest) => p :: scanAbcGo n rest
    | none => []

def scanAbc (cs : List Char) : List (Nat × Nat) := scanAbcGo cs.length cs

/-- Parsed result of one invocation (thing.py parse_stat).  A field that
is none models an absent dict key. -/
structure Stats where
  wires : Option Nat := none
  wire_bits : Option Nat := none
  public_wires : Option Nat := none
  public_wire_bits : Option Nat := none
  ports : Option Nat := none
  port_bits : Option Nat := none
  memories : Option Nat := none
  memory_bits : Option Nat := none
  processes : Option Nat := none
  cells : Option Nat := none
  cells_breakdown : Option (List (String × Nat)) := none
  user_time : Option ℚ := none
  sys_time : Option ℚ := none
  time : Option ℚ := none
  mem_mb : Option ℚ := none
  top_times : Option (List (String × Nat × Nat × Nat)) := none
  abc_nd : Option Nat := none
  abc_lev : Option Nat := none
deriving DecidableEq, Repr

/-- thing.py parse_stat over the raw output, given as its list of lines. -/
def parse_stat (output : List String) : Stats :=
  let s0 : Stats := {}
  let s1 :=
    match statSection output with
    | none => s0
    | some summary =>
      { s0 with
        wires := findMetric summary "Number of wires:" "wires"
        wire_bits := findMetric summary "Number of wire bits:" "wire bits"
        public_wires := findMetric summary "Number of public wires:" "public wires"
        public_wire_bits :=
          findMetric summary "Number of public wire bits:" "public wire bits"
        ports := findMetric summary "Number of ports:" "ports"
        port_bits := findMetric summary "Number of port bits:" "port bits"
        memories := findMetric summary "Number of memories:" "memories"
        memory_bits := findMetric summary "Number of memory bits:" "memory bits"
        processes := findMetric summary "Number of processes:" "processes"
        cells := findMetric summary "Number of cells:" "cells"
        cells_breakdown := some (scanCells summary) }
  let s2 :=
    match firstSome cpuLineMatch output with
    | some (u, s, m) =>
      { s1 with
        user_time := some u
        sys_time := some s
        time := some (u + s)
        mem_mb := some m }
    | none => s1
  let s3 :=
    match timeSpentTail output with
    | some tail => { s2 with top_times := some (scanTriples tail) }
    | none => s2
  let abcMs := (output.map (fun l => scanAbc l.toList)).flatten
  match abcMs with
  | [] => s3
  | _ =>
    let levMax := (abcMs.map Prod.snd).foldl max 0
    { s3 with
      abc_nd := some ((abcMs.map Prod.fst).sum)
      abc_lev := if 0 < levMax then some levMax else none }

/-! ## parse_abc_area (thing.py lines 339-344) -/

/-- One "and = N" match at the current position (the word boundary before
"and" is checked by the caller). -/
def matchAndEqAt (cs : List Char) : Option (Nat × List Char) := do
  let r1 ← expectTok "and" cs
  let r2 := r1.dropWhile isWS
  let r3 ← expectTok "=" r2
  let r4 := r3.dropWhile isWS
  let (d, r5) ← takeDigits r4
  pure (natOfDigits d, r5)

/-- Scan one line for word-boundary "and = N" matches, summing N.  The
Bool argument records whether the previous character was a word
character (no word boundary there). -/
def scanAndGo : Nat → Bool → List Char → Nat
  | 0, _, _ => 0
  | _ + 1, _, [] => 0
  | n + 1, prevW, c :: t =>
    match (if prevW then none else matchAndEqAt (c :: t)) with
    | some (v, rest) => v + scanAndGo n true rest
    | none => scanAndGo n (isWordChar c) t

def parse_abc_area (output : List String) : Nat :=
  (output.map (fun l => scanAndGo l.toList.length false l.toList)).sum

/-! ## A computable lexicographic string order

Python compares strings lexicographically by code point.  The Mathlib
order on String is that same order but is not kernel-computable, so the
model carries its own three-way comparison on the character lists. -/

def cmpChars : List Char → List Char → Ordering
  | [], [] => Ordering.eq
  | [], _ :: _ => Ordering.lt
  | _ :: _, [] => Ordering.gt
  | a :: as, b :: bs =>
    if a < b then Ordering.lt
    else if b < a then Ordering.gt
    else cmpChars as bs

theorem cmpChars_eq_iff : ∀ as bs, cmpChars as bs = Ordering.eq ↔ as = bs
  | [], [] => by simp [cmpChars]
  | [], _ :: _ => by simp [cmpChars]
  | _ :: _, [] => by simp [cmpChars]
  | a :: as, b :: bs => by
    simp only [cmpChars]
    by_cases h1 : a < b
    · simp only [if_pos h1]
      simp only [show (Ordering.lt = Ordering.eq) = False by simp, false_iff]
      intro hc
      rw [List.cons.injEq] at hc
      exact absurd (hc.1 ▸ h1) (lt_irrefl b)
    · by_cases h2 : b < a
      · simp only [if_neg h1, if_pos h2]
        simp only [show (Ordering.gt = Ordering.eq) = False by simp, false_iff]
        intro hc
        rw [List.cons.injEq] at hc
        exact absurd (hc.1 ▸ h2) (lt_irrefl b)
      · have hab : a = b := le_antisymm (not_lt.mp h2) (not_lt.mp h1)
        subst hab
        simp [h1, h2, cmpChars_eq_iff as bs]

theorem cmpChars_swap : ∀ as bs, cmpChars bs as = (cmpChars as bs).swap
  | [], [] => rfl
  | [], _ :: _ => rfl
  | _ :: _, [] => rfl
  | a :: as, b :: bs => by
    simp only [cmpChars]
    by_cases h1 : a < b
    · simp [h1, lt_asymm h1, Ordering.swap]
    · by_cases h2 : b < a
      · simp [h1, h2, Ordering.swap]
      · simp [h1, h2, cmpChars_swap as bs]

theorem cmpChars_lt_trans : ∀ as bs cs, cmpChars as bs = Ordering.lt →
    cmpChars bs cs = Ordering.lt → cmpChars as cs = Ordering.lt
  | [], [], _, h1, _ => by simp [cmpChars] at h1
  | [], _ :: _, [], _, h2 => by simp [cmpChars] at h2
  | [], _ :: _, _ :: _, _, _ => by simp [cmpChars]
  | _ :: _, [], _, h1, _ => by simp [cmpChars] at h1
  | _ :: _, _ :: _, [], _, h2 => by simp [cmpChars] at h2
  | a :: as, b :: bs, c :: cs, h1, h2 => by
    simp only [cmpChars] at h1 h2 ⊢
    by_cases hab : a < b
    · by_cases hbc : b < c
      · simp [lt_trans hab hbc]
      · rw [if_neg hbc] at h2
        by_cases hcb : c < b
        · simp [hcb] at h2
        · have hbc' : b = c := le_antisymm (not_lt.mp hcb) (not_lt.mp hbc)
          subst hbc'
          simp [hab]
    · rw [if_neg hab] at h1
      by_cases hba : b < a
      · simp [hba] at h1
      · have hab' : a = b := le_antisymm (not_lt.mp hba) (not_lt.mp hab)
        subst hab'
        by_cases hac : a < c
        · simp [hac]
        · rw [if_neg hac] at h2 ⊢
          by_cases hca : c < a
          · simp [hca] at h2
          · simp only [if_neg hca] at h2 ⊢
            exact cmpChars_lt_trans as bs cs (by simpa [hab, hba] using h1) h2

/-- Strict lexicographic order on strings by code point. -/
def strLt (a b : String) : Prop := cmpChars a.data b.data = Ordering.lt

/-- Lexicographic order on strings by code point. -/
def strLe (a b : String) : Prop := cmpChars a.data b.data ≠ Ordering.gt

instance : DecidableRel strLt := fun a b =>
  inferInstanceAs (Decidable (cmpChars a.data b.data = Ordering.lt))

instance : DecidableRel strLe := fun a b =>
  inferInstanceAs (Decidable (cmpChars a.data b.data ≠ Ordering.gt))

theorem data_eq_of_cmp_eq {a b : String}
    (h : cmpChars a.data b.data = Ordering.eq) : a = b := by
  cases a; cases b
  exact congrArg String.mk ((cmpChars_eq_iff _ _).mp h)

theorem strLt_trans {a b c : String} (h1 : strLt a b) (h2 : strLt b c) :
    strLt a c :=
  cmpChars_lt_trans _ _ _ h1 h2

theorem strLt_asymm {a b : String} (h : strLt a b) : ¬strLt b a := by
  intro h2
  have := cmpChars_swap a.data b.data
  rw [h, h2] at this
  simp [Ordering.swap] at this

theorem strLt_irrefl (a : String) : ¬strLt a a := by
  intro h
  unfold strLt at h
  rw [(cmpChars_eq_iff a.data a.data).mpr rfl] at h
  simp at h

theorem strLt_trichotomy (a b : String) : strLt a b ∨ a = b ∨ strLt b a := by
  cases h : cmpChars a.data b.data with
  | lt => exact Or.inl h
  | eq => exact Or.inr (Or.inl (data_eq_of_cmp_eq h))
  | gt =>
    refine Or.inr (Or.inr ?_)
    unfold strLt
    rw [cmpChars_swap, h]
    rfl

theorem strLe_iff (a b : String) : strLe a b ↔ strLt a b ∨ a = b := by
  unfold strLe strLt
  cases h : cmpChars a.data b.data with
  | lt => simp
  | eq => simp [data_eq_of_cmp_eq h]
  | gt =>
    simp only [ne_eq, not_true_eq_false, false_iff, not_or]
    constructor
    · simp
    · intro e
      subst e
      rw [(cmpChars_eq_iff a.data a.data).mpr rfl] at h
      simp at h

theorem strLe_trans {a b c : String} (h1 : strLe a b) (h2 : strLe b c) :
    strLe a c := by
  rcases (strLe_iff a b).mp h1 with hl | he
  · rcases (strLe_iff b c).mp h2 with hl2 | he2
    · exact (strLe_iff a c).mpr (Or.inl (strLt_trans hl hl2))
    · subst he2; exact h1
  · subst he; exact h2

theorem strLe_antisymm {a b : String} (h1 : strLe a b) (h2 : strLe b a) :
    a = b := by
  rcases (strLe_iff a b).mp h1 with hl | he
  · rcases (strLe_iff b a).mp h2 with hl2 | he2
    · exact absurd hl2 (strLt_asymm hl)
    · exact he2.symm
  · exact he

theorem strLe_total (a b : String) : strLe a b ∨ strLe b a := by
  rcases strLt_trichotomy a b with h | h | h
  · exact Or.inl ((strLe_iff a b).mpr (Or.inl h))
  · exact Or.inl ((strLe_iff a b).mpr (Or.inr h))
  · exact Or.inr ((strLe_iff b a).mpr (Or.inl h))

instance : IsTrans String strLe := ⟨fun _ _ _ => strLe_trans⟩

instance : IsAntisymm String strLe := ⟨fun _ _ => strLe_antisymm⟩

instance : IsTotal String strLe := ⟨strLe_total⟩

/-! ## fmt_params / tag_for (thing.py lines 62-72, 111-112) -/

/-- Python tuple comparison on (key, value) string pairs, the order used
by sorted(params.items()). -/
def pairKVle (p q : String × String) : Prop :=
  strLt p.1 q.1 ∨ (p.1 = q.1 ∧ strLe p.2 q.2)

instance : DecidableRel pairKVle := fun p q =>
  inferInstanceAs (Decidable (strLt p.1 q.1 ∨ (p.1 = q.1 ∧ strLe p.2 q.2)))

instance : IsTrans (String × String) pairKVle where
  trans a b c hab hbc := by
    rcases hab with h1 | ⟨h1, h2⟩
    · rcases hbc with h3 | ⟨h3, h4⟩
      · exact Or.inl (strLt_trans h1 h3)
      · exact Or.inl (h3 ▸ h1)
    · rcases hbc with h3 | ⟨h3, h4⟩
      · exact Or.inl (by rw [h1]; exact h3)
      · exact Or.inr ⟨h1.trans h3, strLe_trans h2 h4⟩

instance : IsTotal (String × String) pairKVle where
  total a b := by
    rcases strLt_trichotomy a.1 b.1 with h | h | h
    · exact Or.inl (Or.inl h)
    · rcases strLe_total a.2 b.2 with h2 | h2
      · exact Or.inl (Or.inr ⟨h, h2⟩)
      · exact Or.inr (Or.inr ⟨h.symm, h2⟩)
    · exact Or.inr (Or.inl h)

instance : IsAntisymm (String × String) pairKVle where
  antisymm a b hab hba := by
    rcases hab with h1 | ⟨h1, h2⟩
    · rcases hba with h3 | ⟨h3, _⟩
      · exact absurd h3 (strLt_asymm h1)
      · exact absurd h1 (h3 ▸ strLt_irrefl b.1)
    · rcases hba with h3 | ⟨_, h4⟩
      · exact absurd (h1 ▸ h3) (strLt_irrefl b.1)
      · exact Prod.ext h1 (strLe_antisymm h2 h4)

/-- thing.py fmt_params: sort the items, render each as key_value, join
with the fixed separator. -/
def fmt_params (params : List (String × String)) : String :=
  if params.isEmpty then ""
  else
    String.intercalate "__"
      ((List.insertionSort pairKVle params).map (fun kv => kv.1 ++ "_" ++ kv.2))

def tag_for (design : String) (params : List (String × String)) : String :=
  if params.isEmpty then design else design ++ "_" ++ fmt_params params

/-! ## Cell taxonomy and classifier (thing.py lines 119-200) -/

inductive Cat where
  | seq
  | mem
  | comb
  | other
deriving DecidableEq, Repr

def SEQ_GROUPS : List String := ["reg", "reg_ff", "reg_latch"]

def MEM_GROUPS : List String := ["mem"]

def groupCat (group_name : String) : Cat :=
  if group_name ∈ SEQ_GROUPS then Cat.seq
  else if group_name ∈ MEM_GROUPS then Cat.mem
  else Cat.comb

/-- load_cell_groups: the "groups" mapping of the dump, flattened to
cell type -> category. -/
def load_cell_groups (groups : List (String × List String)) :
    List (String × Cat) :=
  groups.foldl
    (fun cats g => g.2.foldl (fun cats t => dset cats t (groupCat g.1)) cats)
    []

/-- Outcome of running the external tool for the taxonomy dump:
either the parsed structured document, or one of the three handled
failure modes (CalledProcessError, FileNotFoundError, JSONDecodeError). -/
inductive DumpOutcome where
  | ok (groups : List (String × List String))
  | processFailure
  | missingFile
  | malformedJson
deriving DecidableEq

def DumpOutcome.isFailure : DumpOutcome → Bool
  | .ok _ => false
  | .processFailure => true
  | .missingFile => true
  | .malformedJson => true

/-- dump_cell_groups: on success, load the dump; on every handled
failure, print a warning and return the empty mapping.  The Bool
records whether the warning was printed. -/
def dump_cell_groups (o : DumpOutcome) : List (String × Cat) × Bool :=
  match o with
  | .ok groups => (load_cell_groups groups, false)
  | .processFailure => ([], true)
  | .missingFile => ([], true)
  | .malformedJson => ([], true)

structure CellTotals where
  seq : Nat := 0
  mem : Nat := 0
  comb : Nat := 0
  other : Nat := 0
deriving DecidableEq, Repr

structure CellsByType where
  seq : List (String × Nat) := []
  mem : List (String × Nat) := []
  comb : List (String × Nat) := []
  other : List (String × Nat) := []
deriving DecidableEq, Repr

def CellTotals.bump (t : CellTotals) (c : Cat) (n : Nat) : CellTotals :=
  match c with
  | .seq => { t with seq := t.seq + n }
  | .mem => { t with mem := t.mem + n }
  | .comb => { t with comb := t.comb + n }
  | .other => { t with other := t.other + n }

def CellsByType.put (b : CellsByType) (c : Cat) (ty : String) (n : Nat) :
    CellsByType :=
  match c with
  | .seq => { b with seq := dset b.seq ty n }
  | .mem => { b with mem := dset b.mem ty n }
  | .comb => { b with comb := dset b.comb ty n }
  | .other => { b with other := dset b.other ty n }

def CellsByType.ofCat (b : CellsByType) (c : Cat) : List (String × Nat) :=
  match c with
  | .seq => b.seq
  | .mem => b.mem
  | .comb => b.comb
  | .other => b.other

/-- cell_cats.get(cell_type, "other"). -/
def catOf (cats : List (String × Cat)) (ty : String) : Cat :=
  (dget cats ty).getD Cat.other

def classifyGo (cats : List (String × Cat)) :
    List (String × Nat) → CellTotals → CellsByType → CellTotals × CellsByType
  | [], t, b => (t, b)
  | (ty, n) :: rest, t, b =>
    classifyGo cats rest (t.bump (catOf cats ty) n) (b.put (catOf cats ty) ty n)

/-- classify_cells: partition the breakdown into the four categories,
keeping per-type detail. -/
def classify_cells (cells_breakdown : List (String × Nat))
    (cell_cats : List (String × Cat)) : CellTotals × CellsByType :=
  classifyGo cell_cats cells_breakdown {} {}

def sumCounts (b : List (String × Nat)) : Nat := (b.map Prod.snd).sum

/-! ## run_mode_ff (thing.py lines 579-624), pure result computation -/

structure FFResult where
  design : String
  seq : Nat
  mem : Nat
  comb : Nat
  other : Nat
  total : Nat
  ratio' : ℚ
  abc_area : Nat
  ff_area : Nat
  total_area : Nat
  ff_area_pct : ℚ
  seq_types : List (String × Nat)
  mem_types : List (String × Nat)
  other_types : List (String × Nat)
  comb_types : List (String × Nat)
deriving DecidableEq, Repr

/-- run_mode_ff with the subprocess replaced by its output text.  The
field ratio' models the source's "ratio" entry. -/
def run_mode_ff (tag : String) (output : List String)
    (cell_cats : List (String × Cat)) (ff_size : Nat) : FFResult :=
  let stats := parse_stat output
  let cells_breakdown := stats.cells_breakdown.getD []
  let tb := classify_cells cells_breakdown cell_cats
  let totals := tb.1
  let by_type := tb.2
  let total_cells := totals.seq + totals.mem + totals.comb + totals.other
  let seq_count := totals.seq
  let abc_area := parse_abc_area output
  let ff_area := seq_count * ff_size
  let total_area := abc_area + ff_area
  { design := tag
    seq := seq_count
    mem := totals.mem
    comb := totals.comb
    other := totals.other
    total := total_cells
    ratio' := if 0 < total_cells then (seq_count : ℚ) / (total_cells : ℚ) else 0
    abc_area := abc_area
    ff_area := ff_area
    total_area := total_area
    ff_area_pct :=
      if 0 < total_area then (ff_area : ℚ) / (total_area : ℚ) * 100 else 0
    seq_types := by_type.seq
    mem_types := by_type.mem
    other_types := by_type.other
    comb_types := by_type.comb }

/-! ## Numeric rendering (models of printf-style fixed point on floats) -/

def padLeft (w : Nat) (s : String) : String :=
  String.mk (List.replicate (w - s.length) ' ') ++ s

def padZeros (w : Nat) (s : String) : String :=
  String.mk (List.replicate (w - s.length) '0') ++ s

/-- Fixed-point rendering of a nonnegative rational with prec decimal
places (model of Python float formatting; the values printed by this
program are nonnegative and the claims never depend on rounding ties).
The scaled value floor(q * 10^prec + 1/2) is computed directly on the
reduced numerator and denominator. -/
def fmtFixed (q : ℚ) (prec : Nat) : String :=
  let d : Nat := 10 ^ prec
  let n : Nat :=
    (Int.fdiv (q.num * (d : Int) * 2 + (q.den : Int)) (2 * (q.den : Int))).toNat
  Nat.repr (n / d) ++ "." ++ padZeros prec (Nat.repr (n % d))

/-! ## HumanOut.add_ff (thing.py lines 394-427) -/

def ffHeaderLine (r : FFResult) : String :=
  r.design ++ ": " ++ Nat.repr r.total ++ " cells"

def pctOf (part total : Nat) : ℚ := (part : ℚ) / (total : ℚ) * 100

def ffPctLine (label : String) (part total : Nat) : String :=
  label ++ padLeft 6 (Nat.repr part) ++ "  (" ++
    padLeft 5 (fmtFixed (pctOf part total) 1) ++ "%)"

/-- The per-category percentage lines, printed only when total > 0. -/
def ffPctBlock (r : FFResult) : List String :=
  if 0 < r.total then
    [ffPctLine "  seq:   " r.seq r.total, ffPctLine "  comb:  " r.comb r.total]
      ++ (if 0 < r.other then [ffPctLine "  other: " r.other r.total] else [])
  else []

/-- The area summary line, printed only when total_area > 0. -/
def ffAreaBlock (r : FFResult) : List String :=
  if 0 < r.total_area then
    ["  area: " ++ Nat.repr r.abc_area ++ " logic + " ++ Nat.repr r.ff_area ++
      " FF = " ++ Nat.repr r.total_area ++ " (" ++ fmtFixed r.ff_area_pct 1 ++
      "% FF)"]
  else []

def sortByCountDesc (l : List (String × Nat)) : List (String × Nat) :=
  List.insertionSort (fun a b : String × Nat => b.2 ≤ a.2) l

def ffDetailBlock (cat_name : String) (by_type : List (String × Nat)) :
    List String :=
  if by_type.isEmpty then []
  else
    ("  " ++ cat_name ++ " details:") ::
      (sortByCountDesc by_type).map
        (fun tc => "    " ++ padLeft 6 (Nat.repr tc.2) ++ "  " ++ tc.1)

def ffVerboseBlock (verbose : Bool) (r : FFResult) : List String :=
  if verbose then
    ffDetailBlock "seq" r.seq_types ++ ffDetailBlock "comb" r.comb_types ++
      ffDetailBlock "other" r.other_types
  else []

/-- HumanOut.add_ff as the list of printed lines (the final print() is
the trailing empty line). -/
def add_ff (verbose : Bool) (r : FFResult) : List String :=
  ffHeaderLine r :: (ffPctBlock r ++ ffAreaBlock r ++ ffVerboseBlock verbose r ++ [""])

/-! ## Path helpers (common_parent, relative_to) -/

def splitSlashGo : List Char → List Char → List (List Char)
  | cur, [] => [cur.reverse]
  | cur, c :: t =>
    if c = '/' then cur.reverse :: splitSlashGo [] t
    else splitSlashGo (c :: cur) t

/-- Path.parts for the plain relative paths this driver handles:
split on the path separator. -/
def pathParts (p : String) : List String :=
  (splitSlashGo [] p.data).map String.mk

/-- Rendering a parts list; an empty list is the "." path. -/
def renderPath (parts : List String) : String :=
  if parts.isEmpty then "." else String.intercalate "/" parts

/-- relative_to for a root that is a prefix of the path (common_parent
always produces such a root for the paths it was computed from). -/
def relTo (p root : List String) : List String := p.drop root.length

/-- If every list starts with h, return the tails. -/
def allHeads (h : String) : List (List String) → Option (List (List String))
  | [] => some []
  | [] :: _ => none
  | (h' :: t) :: rest =>
    if h' = h then (allHeads h rest).map (fun ts => t :: ts) else none

/-- If every list is nonempty and all heads agree, return the common
head and the tails (one zip step of common_parent). -/
def headsAllEq (paths : List (List String)) :
    Option (String × List (List String)) :=
  match paths with
  | [] => none
  | [] :: _ => none
  | (h :: t) :: rest =>
    match allHeads h rest with
    | some tails => some (h, t :: tails)
    | none => none

def commonGo : Nat → List (List String) → List String
  | 0, _ => []
  | n + 1, paths =>
    match headsAllEq paths with
    | some (h, tails) => h :: commonGo n tails
    | none => []

/-- common_parent: longest common prefix of the parts, stopping at the
first index where the parts differ or some path ends (the zip
truncates); the empty result is the "." path. -/
def common_parent (paths : List (List String)) : List String :=
  match paths with
  | [] => []
  | p :: rest => commonGo p.length (p :: rest)

/-! ## CsvOut (thing.py lines 434-519) -/

/-- The fields of a per-run stats dict that CsvOut.add_stats consumes
(design, yosys and the three optional metrics). -/
structure AnalyzeStats where
  design : String
  yosys : String
  time : Option ℚ := none
  mem_mb : Option ℚ := none
  cells : Option Nat := none
deriving DecidableEq, Repr

structure CsvOutState where
  time : List ((String × String) × ℚ) := []
  memory : List ((String × String) × ℚ) := []
  cells : List ((String × String) × Nat) := []
deriving DecidableEq, Repr

/-- CsvOut.add_stats: store each present metric under (yosys, design). -/
def CsvOutState.add_stats (st : CsvOutState) (s : AnalyzeStats) : CsvOutState :=
  let st1 :=
    match s.time with
    | some t => { st with time := dset st.time (s.yosys, s.design) t }
    | none => st
  let st2 :=
    match s.mem_mb with
    | some m => { st1 with memory := dset st1.memory (s.yosys, s.design) m }
    | none => st1
  match s.cells with
  | some c => { st2 with cells := dset st2.cells (s.yosys, s.design) c }
  | none => st2

def collectStats (recs : List AnalyzeStats) : CsvOutState :=
  recs.foldl CsvOutState.add_stats {}

/-- sorted(set(...)) over strings: drop duplicates, then sort. -/
def sortedStrs (l : List String) : List String :=
  List.insertionSort strLe l.dedup

def CsvOutState.yosyes (st : CsvOutState) : List String :=
  sortedStrs (st.time.map (fun kv => kv.1.1))

def CsvOutState.designs (st : CsvOutState) : List String :=
  sortedStrs (st.time.map (fun kv => kv.1.2))

/-- A time cell: blank when the key is missing or the stored value is
falsy (0.0), otherwise two decimal places. -/
def timeCell (o : Option ℚ) : String :=
  match o with
  | none => ""
  | some t => if t = 0 then "" else fmtFixed t 2

/-- A memory cell: blank when missing or falsy, otherwise one decimal. -/
def memCell (o : Option ℚ) : String :=
  match o with
  | none => ""
  | some m => if m = 0 then "" else fmtFixed m 1

/-- A cell-count cell: blank when missing or falsy (0). -/
def cellsCell (o : Option Nat) : String :=
  match o with
  | none => ""
  | some c => if c = 0 then "" else Nat.repr c

/-- One table: bare name line, header line, one row per design; every
printed field ends with the separator. -/
def csvTable (name : String) (yosyes designs : List String)
    (root : List String) (cellFor : String → String → String) : List String :=
  name ::
    ("design;" ++
      String.join (yosyes.map (fun ys => renderPath (relTo (pathParts ys) root) ++ ";"))) ::
    designs.map (fun d =>
      d ++ ";" ++ String.join (yosyes.map (fun ys => cellFor ys d ++ ";")))

/-- CsvOut.out as the list of printed lines. -/
def CsvOutState.out (st : CsvOutState) : List String :=
  if st.time.isEmpty && st.memory.isEmpty then []
  else if st.yosyes.isEmpty then []
  else
    csvTable "time" st.yosyes st.designs
        (common_parent (st.yosyes.map pathParts))
        (fun ys d => timeCell (dget st.time (ys, d))) ++
      [""] ++
      csvTable "memory" st.yosyes st.designs
        (common_parent (st.yosyes.map pathParts))
        (fun ys d => memCell (dget st.memory (ys, d))) ++
      (if st.cells.isEmpty then []
       else
         [""] ++
           csvTable "cells" st.yosyes st.designs
             (common_parent (st.yosyes.map pathParts))
             (fun ys d => cellsCell (dget st.cells (ys, d))))

/-! ## print_csv (analyze.py lines 279-338) -/

/-- by_design[design].get(ys, dict()): the record for (design, ys) is the
last one added with those identifiers. -/
def lookupStat (all_stats : List AnalyzeStats) (d ys : String) :
    Option AnalyzeStats :=
  (all_stats.filter (fun s => s.design = d && s.yosys = ys)).getLast?

/-- The time cell of print_csv (s.get("time") on a possibly missing
record, then the truthiness branch). -/
def pcTimeCell (o : Option AnalyzeStats) : String :=
  timeCell (o.bind (fun s => s.time))

def pcMemCell (o : Option AnalyzeStats) : String :=
  memCell (o.bind (fun s => s.mem_mb))

def pcCellsCell (o : Option AnalyzeStats) : String :=
  cellsCell (o.bind (fun s => s.cells))

/-- One print_csv table: tab separated, rows are the sorted design set,
columns follow the caller-supplied binary list order. -/
def printCsvTable (name : String) (all_stats : List AnalyzeStats)
    (bins : List String) (root : List String)
    (cellOf : Option AnalyzeStats → String) : List String :=
  name ::
    ("design" ++ "\t" ++
      String.join (bins.map (fun ys => renderPath (relTo (pathParts ys) root) ++ "\t"))) ::
    (sortedStrs (all_stats.map (fun s => s.design))).map (fun d =>
      d ++ "\t" ++
        String.join (bins.map (fun ys => cellOf (lookupStat all_stats d ys) ++ "\t")))

/-- print_csv as the list of printed lines: time, memory and cells
tables separated by blank lines. -/
def print_csv (all_stats : List AnalyzeStats) (bins : List String) :
    List String :=
  printCsvTable "time" all_stats bins (common_parent (bins.map pathParts))
      pcTimeCell ++
    [""] ++
    printCsvTable "memory" all_stats bins (common_parent (bins.map pathParts))
      pcMemCell ++
    [""] ++
    printCsvTable "cells" all_stats bins (common_parent (bins.map pathParts))
      pcCellsCell

/-! ## Lemmas about the dict model -/

theorem dget_dset_self {κ α : Type} [DecidableEq κ] (m : List (κ × α))
    (k : κ) (v : α) : dget (dset m k v) k = some v := by
  induction m with
  | nil => simp [dset, dget]
  | cons p rest ih =>
    by_cases h : p.1 = k
    · simp [dset, dget, h]
    · simp [dset, dget, h, ih]

theorem dget_dset_ne {κ α : Type} [DecidableEq κ] (m : List (κ × α))
    (k k' : κ) (v : α) (h : k' ≠ k) : dget (dset m k v) k' = dget m k' := by
  have h' : ¬k = k' := fun e => h e.symm
  induction m with
  | nil => simp [dset, dget, h']
  | cons p rest ih =>
    by_cases hp : p.1 = k
    · subst hp; simp [dset, dget, h']
    · simp [dset, dget, hp, ih]

theorem mem_keys_dset {κ α : Type} [DecidableEq κ] (m : List (κ × α))
    (k k' : κ) (v : α) :
    k' ∈ (dset m k v).map Prod.fst ↔ k' ∈ m.map Prod.fst ∨ k' = k := by
  induction m with
  | nil => simp [dset]
  | cons p rest ih =>
    by_cases hp : p.1 = k
    · subst hp; simp [dset]; tauto
    · simp [dset, hp, ih]; tauto

theorem dset_append {κ α : Type} [DecidableEq κ] (m : List (κ × α))
    (k : κ) (v : α) (h : k ∉ m.map Prod.fst) : dset m k v = m ++ [(k, v)] := by
  induction m with
  | nil => simp [dset]
  | cons p rest ih =>
    simp only [List.map_cons, List.mem_cons] at h
    push_neg at h
    have hne : ¬p.1 = k := fun e => h.1 e.symm
    simp [dset, hne, ih h.2]

theorem dget_eq_none_iff {κ α : Type} [DecidableEq κ] (m : List (κ × α))
    (k : κ) : dget m k = none ↔ k ∉ m.map Prod.fst := by
  induction m with
  | nil => simp [dget]
  | cons p rest ih =>
    by_cases hp : p.1 = k
    · subst hp; simp [dget]
    · have h' : ¬k = p.1 := fun e => hp e.symm
      simp [dget, hp, ih, h']

theorem mem_of_dget_eq_some {κ α : Type} [DecidableEq κ] {m : List (κ × α)}
    {k : κ} {v : α} (h : dget m k = some v) : (k, v) ∈ m := by
  induction m with
  | nil => simp [dget] at h
  | cons p rest ih =>
    by_cases hp : p.1 = k
    · simp only [dget, if_pos hp] at h
      exact List.mem_cons.mpr (Or.inl (by cases p; cases h; cases hp; rfl))
    · simp only [dget, if_neg hp] at h
      exact List.mem_cons.mpr (Or.inr (ih h))

theorem dget_eq_some_of_mem {κ α : Type} [DecidableEq κ] {m : List (κ × α)}
    {k : κ} {v : α} (hnd : (m.map Prod.fst).Nodup) (h : (k, v) ∈ m) :
    dget m k = some v := by
  induction m with
  | nil => simp at h
  | cons p rest ih =>
    rcases List.mem_cons.mp h with he | hr
    · subst he; simp [dget]
    · have hk : k ∈ rest.map Prod.fst :=
        List.mem_map.mpr ⟨(k, v), hr, rfl⟩
      have hp : p.1 ≠ k := by
        intro e
        exact (List.nodup_cons.mp hnd).1 (e ▸ hk)
      simp [dget, hp, ih (List.nodup_cons.mp hnd).2 hr]

theorem dget_eq_of_perm {κ α : Type} [DecidableEq κ] {m1 m2 : List (κ × α)}
    (hp : m1.Perm m2) (hnd : (m1.map Prod.fst).Nodup) (k : κ) :
    dget m1 k = dget m2 k := by
  cases h1 : dget m1 k with
  | none =>
    have : k ∉ m2.map Prod.fst := by
      intro hk
      exact (dget_eq_none_iff m1 k).mp h1 ((hp.map Prod.fst).mem_iff.mpr hk)
    exact ((dget_eq_none_iff m2 k).mpr this).symm
  | some v =>
    have hm2 : (k, v) ∈ m2 := hp.mem_iff.mp (mem_of_dget_eq_some h1)
    have hnd2 : (m2.map Prod.fst).Nodup :=
      ((hp.map Prod.fst).nodup_iff).mp hnd
    exact (dget_eq_some_of_mem hnd2 hm2).symm

/-! ## Structural lemmas about parse_stat -/

theorem firstSome_eq_none {α β : Type} (f : α → Option β) (l : List α)
    (h : ∀ a ∈ l, f a = none) : firstSome f l = none := by
  induction l with
  | nil => rfl
  | cons a rest ih =>
    have ha := h a (List.mem_cons_self a rest)
    simp only [firstSome, ha]
    exact ih (fun a' ha' => h a' (List.mem_cons_of_mem a ha'))

theorem parse_stat_cells_breakdown (output : List String) :
    (parse_stat output).cells_breakdown = (statSection output).map scanCells := by
  unfold parse_stat
  cases hs : statSection output <;>
    cases hc : firstSome cpuLineMatch output <;>
      cases ht : timeSpentTail output <;>
        cases hab : (output.map (fun l => scanAbc l.toList)).flatten <;>
          simp

theorem parse_stat_cells_eq (output : List String) :
    (parse_stat output).cells =
      (statSection output).bind
        (fun s => findMetric s "Number of cells:" "cells") := by
  unfold parse_stat
  cases hs : statSection output <;>
    cases hc : firstSome cpuLineMatch output <;>
      cases ht : timeSpentTail output <;>
        cases hab : (output.map (fun l => scanAbc l.toList)).flatten <;>
          simp

theorem parse_stat_top_times (output : List String) :
    (parse_stat output).top_times = (timeSpentTail output).map scanTriples := by
  unfold parse_stat
  cases hs : statSection output <;>
    cases hc : firstSome cpuLineMatch output <;>
      cases ht : timeSpentTail output <;>
        cases hab : (output.map (fun l => scanAbc l.toList)).flatten <;>
          simp

/-! ## C1: duplicate tokens in the per-cell-type scan -/

/-- Spec-side description of overwrite-by-last: the count attached to
the last pair carrying the token. -/
def lastMatchCount (ps : List (String × Nat)) (tok : String) : Option Nat :=
  match ps with
  | [] => none
  | p :: rest =>
    match lastMatchCount rest tok with
    | some v => some v
    | none => if p.1 = tok then some p.2 else none

theorem scanCells_go (lines : List String) :
    ∀ acc : List (String × Nat),
      lines.foldl
          (fun cells l =>
            match lineCellMatch l with
            | some nc => dset cells nc.1 nc.2
            | none => cells)
          acc =
        (lines.filterMap lineCellMatch).foldl (fun m p => dset m p.1 p.2) acc := by
  induction lines with
  | nil => intro acc; rfl
  | cons l rest ih =>
    intro acc
    cases hl : lineCellMatch l <;> simp [List.filterMap_cons, hl, ih]

theorem dget_fold_dset (ps : List (String × Nat)) :
    ∀ (m0 : List (String × Nat)) (tok : String),
      dget (ps.foldl (fun m p => dset m p.1 p.2) m0) tok =
        match lastMatchCount ps tok with
        | some v => some v
        | none => dget m0 tok := by
  induction ps with
  | nil => intro m0 tok; rfl
  | cons p rest ih =>
    intro m0 tok
    simp only [List.foldl_cons]
    rw [ih]
    cases h : lastMatchCount rest tok with
    | some v => simp [lastMatchCount, h]
    | none =>
      by_cases hp : p.1 = tok
      · subst hp; simp [lastMatchCount, h, dget_dset_self]
      · simp [lastMatchCount, h, hp,
          dget_dset_ne _ _ _ _ (fun e => hp e.symm)]

/-- C1 counterexample: a section with two lines carrying the same
cell-type token.  The breakdown maps the token to the count of the last
line (3), not to the sum of the per-line counts (4 + 3 = 7), so the
claimed accumulation is false on the code. -/
theorem c1_counterexample :
    (parse_stat ["Printing statistics.", "   $_X_ 4", "   $_X_ 3"]).cells_breakdown
        = some [("$_X_", 3)] ∧
    dget ((parse_stat ["Printing statistics.", "   $_X_ 4", "   $_X_ 3"]).cells_breakdown.getD [])
        "$_X_" = some 3 ∧
    ¬dget ((parse_stat ["Printing statistics.", "   $_X_ 4", "   $_X_ 3"]).cells_breakdown.getD [])
        "$_X_" = some (4 + 3) := by
  refine ⟨by rfl, by rfl, by decide⟩

/-- C1 (amended): whenever the statistics section is located, the parsed
breakdown is the per-line scan of that section, and the scan maps every
token to the count of its last matching line (overwrite-by-last), not to
the sum of its per-line counts. -/
theorem c1_amended (output summary : List String) (tok : String)
    (h : statSection output = some summary) :
    (parse_stat output).cells_breakdown = some (scanCells summary) ∧
    dget (scanCells summary) tok =
      lastMatchCount (summary.filterMap lineCellMatch) tok := by
  constructor
  · rw [parse_stat_cells_breakdown, h]; rfl
  · rw [show scanCells summary =
        (summary.filterMap lineCellMatch).foldl (fun m p => dset m p.1 p.2) []
      from scanCells_go summary []]
    rw [dget_fold_dset]
    cases hl : lastMatchCount (summary.filterMap lineCellMatch) tok <;>
      simp [hl, dget]

/-- C1 witness: the amended theorem applied at a concrete section. -/
theorem c1_amended_witness :
    (parse_stat ["Printing statistics.", "   $_Y_ 2", "   $_Y_ 5"]).cells_breakdown
        = some (scanCells ["   $_Y_ 2", "   $_Y_ 5"]) ∧
    dget (scanCells ["   $_Y_ 2", "   $_Y_ 5"]) "$_Y_" =
      lastMatchCount ((["   $_Y_ 2", "   $_Y_ 5"] : List String).filterMap lineCellMatch) "$_Y_" :=
  c1_amended ["Printing statistics.", "   $_Y_ 2", "   $_Y_ 5"]
    ["   $_Y_ 2", "   $_Y_ 5"] "$_Y_" (by rfl)

/-! ## C6: absent metrics versus stored-empty containers -/

/-- C6 counterexample: an output whose statistics section contains no
cell lines stores cells_breakdown as a present empty mapping, and an
output whose "Time spent:" line carries no triples stores top_times as a
present empty list; the claim says both keys must be absent. -/
theorem c6_counterexample :
    (parse_stat ["Printing statistics."]).cells_breakdown = some [] ∧
    (parse_stat ["Time spent: nothing here"]).top_times = some [] ∧
    (parse_stat ["Time spent: nothing here"]).cells_breakdown = none := by
  refine ⟨by rfl, by rfl, by rfl⟩

/-- C6 (amended): a scalar metric with zero pattern matches is stored as
an absent key, and cells_breakdown and top_times are absent when their
enclosing signature (statistics section, "Time spent:" line) is absent;
but when the enclosing signature is present, cells_breakdown and
top_times are stored even when the inner scan matched nothing, so they
can be present and empty. -/
theorem c6_amended (output : List String) :
    (statSection output = none → (parse_stat output).cells_breakdown = none) ∧
    (∀ summary, statSection output = some summary →
      (parse_stat output).cells_breakdown = some (scanCells summary)) ∧
    (timeSpentTail output = none → (parse_stat output).top_times = none) ∧
    (∀ tail, timeSpentTail output = some tail →
      (parse_stat output).top_times = some (scanTriples tail)) ∧
    (∀ summary, statSection output = some summary →
      (∀ l ∈ summary,
        lineLabelNum "Number of cells:" l = none ∧ lineLabelNum "cells" l = none) →
      (parse_stat output).cells = none) := by
  refine ⟨?_, ?_, ?_, ?_, ?_⟩
  · intro h; rw [parse_stat_cells_breakdown, h]; rfl
  · intro summary h; rw [parse_stat_cells_breakdown, h]; rfl
  · intro h; rw [parse_stat_top_times, h]; rfl
  · intro tail h; rw [parse_stat_top_times, h]; rfl
  · intro summary h hnone
    rw [parse_stat_cells_eq, h]
    show findMetric summary "Number of cells:" "cells" = none
    unfold findMetric
    rw [firstSome_eq_none _ _ (fun l hl => (hnone l hl).1),
      firstSome_eq_none _ _ (fun l hl => (hnone l hl).2)]

/-- C6 witness: the amended theorem applied at concrete outputs. -/
theorem c6_amended_witness :
    (parse_stat ["no markers at all"]).cells_breakdown = none ∧
    (parse_stat ["Printing statistics.", "   $_Z_ 9"]).cells_breakdown
        = some (scanCells ["   $_Z_ 9"]) ∧
    (parse_stat ["no markers at all"]).top_times = none ∧
    (parse_stat ["Time spent: 50% 2x opt (3 sec)"]).top_times
        = some (scanTriples " 50% 2x opt (3 sec)".toList) ∧
    (parse_stat ["Printing statistics.", "   $_Z_ 9"]).cells = none :=
  ⟨(c6_amended ["no markers at all"]).1 (by rfl),
    (c6_amended ["Printing statistics.", "   $_Z_ 9"]).2.1 _ (by rfl),
    (c6_amended ["no markers at all"]).2.2.1 (by rfl),
    (c6_amended ["Time spent: 50% 2x opt (3 sec)"]).2.2.2.1 _ (by rfl),
    (c6_amended ["Printing statistics.", "   $_Z_ 9"]).2.2.2.2 _ (by rfl)
      (by decide)⟩

/-! ## C7: the derived short-format fallback pattern -/

/-- C7: the code comment announces a fallback for the short format
"   12 wires", but the pattern derived by text substitution from the
verbose pattern has the label-before-number shape, so it does not match
the short format and the metric stays absent; the number-first pattern
of analyze.py (lineNumLabel) does extract 12 from the same line. -/
theorem c7_short_fallback_never_matches :
    (parse_stat ["Printing statistics.", "   12 wires"]).wires = none ∧
    lineLabelNum "wires" "   12 wires" = none ∧
    lineLabelNum "wires" "   wires 12" = some 12 ∧
    lineNumLabel "wires" "   12 wires" = some 12 := by
  refine ⟨by rfl, by rfl, by rfl, by rfl⟩

/-! ## C2: tag formation is order-independent -/

/-- C2: two parameter lists holding the same key/value pairs, in any
insertion order, produce the same tag, because fmt_params sorts the
pairs before rendering; and the rendering is key_value joined by the
fixed double-underscore separator. -/
theorem c2_tag_for_perm_invariant :
    (∀ (design : String) (p1 p2 : List (String × String)), p1.Perm p2 →
      tag_for design p1 = tag_for design p2) ∧
    fmt_params [("a", "1"), ("b", "2")] = "a_1__b_2" := by
  constructor
  · intro design p1 p2 hperm
    have hsort : List.insertionSort pairKVle p1 = List.insertionSort pairKVle p2 :=
      List.eq_of_perm_of_sorted
        (((List.perm_insertionSort pairKVle p1).trans hperm).trans
          (List.perm_insertionSort pairKVle p2).symm)
        (List.sorted_insertionSort pairKVle p1)
        (List.sorted_insertionSort pairKVle p2)
    have hempty : p1.isEmpty = p2.isEmpty := by
      cases h1 : p1 with
      | nil =>
        have : p2 = [] := (h1 ▸ hperm).symm.eq_nil
        rw [this]
      | cons a t =>
        cases h2 : p2 with
        | nil =>
          have : p1 = [] := (h2 ▸ hperm).eq_nil
          rw [h1] at this
          exact absurd this (by simp)
        | cons b u => rfl
    simp only [tag_for, fmt_params, hempty, hsort]
  · decide

/-- C2 witness: the invariance applied at the two orderings of the
example map, together with the rendered value. -/
theorem c2_tag_for_perm_invariant_witness :
    tag_for "d" [("a", "1"), ("b", "2")] = tag_for "d" [("b", "2"), ("a", "1")] ∧
    tag_for "d" [("b", "2"), ("a", "1")] = "d_a_1__b_2" :=
  ⟨c2_tag_for_perm_invariant.1 "d" [("a", "1"), ("b", "2")]
      [("b", "2"), ("a", "1")] (by decide),
    by decide⟩

/-! ## Classification lemmas -/

theorem classifyGo_totals (cats : List (String × Cat)) (b : List (String × Nat)) :
    ∀ (t : CellTotals) (bt : CellsByType),
      (classifyGo cats b t bt).1.seq + (classifyGo cats b t bt).1.mem +
          (classifyGo cats b t bt).1.comb + (classifyGo cats b t bt).1.other =
        t.seq + t.mem + t.comb + t.other + sumCounts b := by
  induction b with
  | nil => intro t bt; simp [classifyGo, sumCounts]
  | cons p rest ih =>
    intro t bt
    obtain ⟨ty, n⟩ := p
    have hsum : sumCounts ((ty, n) :: rest) = n + sumCounts rest := by
      simp [sumCounts]
    rw [hsum]
    simp only [classifyGo]
    rw [ih]
    cases catOf cats ty <;> simp [CellTotals.bump] <;> omega

theorem put_ofCat_ne_cat (bt : CellsByType) (c c' : Cat) (ty : String) (n : Nat)
    (h : c ≠ c') : (bt.put c' ty n).ofCat c = bt.ofCat c := by
  cases c' <;> cases c <;> first
    | exact absurd rfl h
    | rfl

theorem put_ofCat_same (bt : CellsByType) (c : Cat) (ty : String) (n : Nat) :
    (bt.put c ty n).ofCat c = dset (bt.ofCat c) ty n := by
  cases c <;> rfl

theorem put_ofCat_dget_ne (bt : CellsByType) (c c' : Cat) (ty ty' : String)
    (n : Nat) (h : ty ≠ ty') :
    dget ((bt.put c' ty' n).ofCat c) ty = dget (bt.ofCat c) ty := by
  by_cases hc : c = c'
  · subst hc
    rw [put_ofCat_same]
    exact dget_dset_ne _ _ _ _ h
  · rw [put_ofCat_ne_cat _ _ _ _ _ hc]

theorem classifyGo_byType_untouched (cats : List (String × Cat))
    (b : List (String × Nat)) :
    ∀ (t : CellTotals) (bt : CellsByType) (c : Cat) (ty : String),
      ty ∉ b.map Prod.fst →
      dget ((classifyGo cats b t bt).2.ofCat c) ty = dget (bt.ofCat c) ty := by
  induction b with
  | nil => intro t bt c ty _; rfl
  | cons p rest ih =>
    intro t bt c ty hty
    obtain ⟨ty', n⟩ := p
    simp only [List.map_cons, List.mem_cons] at hty
    push_neg at hty
    show dget ((classifyGo cats rest _ _).2.ofCat c) ty = _
    rw [ih _ _ c ty hty.2]
    exact put_ofCat_dget_ne _ _ _ _ _ _ hty.1

theorem classifyGo_byType_mem (cats : List (String × Cat))
    (b : List (String × Nat)) :
    ∀ (t : CellTotals) (bt : CellsByType) (ty : String) (n : Nat),
      (b.map Prod.fst).Nodup → (ty, n) ∈ b →
      dget ((classifyGo cats b t bt).2.ofCat (catOf cats ty)) ty = some n ∧
      ∀ c, c ≠ catOf cats ty →
        dget ((classifyGo cats b t bt).2.ofCat c) ty = dget (bt.ofCat c) ty := by
  induction b with
  | nil => intro t bt ty n _ hmem; simp at hmem
  | cons p rest ih =>
    intro t bt ty n hnd hmem
    obtain ⟨ty', n'⟩ := p
    rw [List.map_cons] at hnd
    have hnd' := List.nodup_cons.mp hnd
    simp only [classifyGo]
    rcases List.mem_cons.mp hmem with he | hr
    · have h1 : ty' = ty := by simpa using congrArg Prod.fst he.symm
      have h2 : n' = n := by simpa using congrArg Prod.snd he.symm
      rw [h1, h2] at hnd' ⊢
      have hnotin : ty ∉ rest.map Prod.fst := hnd'.1
      constructor
      · rw [classifyGo_byType_untouched cats rest _ _ _ _ hnotin,
          put_ofCat_same, dget_dset_self]
      · intro c hc
        rw [classifyGo_byType_untouched cats rest _ _ _ _ hnotin,
          put_ofCat_ne_cat _ _ _ _ _ hc]
    · have htyne : ty ≠ ty' := by
        intro e
        exact hnd'.1 (e ▸ List.mem_map.mpr ⟨(ty, n), hr, rfl⟩)
      have hih := ih (t.bump (catOf cats ty') n') (bt.put (catOf cats ty') ty' n')
        ty n hnd'.2 hr
      refine ⟨hih.1, fun c hc => ?_⟩
      rw [hih.2 c hc]
      exact put_ofCat_dget_ne _ _ _ _ _ _ htyne

/-! ## C3: classification conserves counts -/

/-- C3: for every breakdown and taxonomy, seq + mem + comb + other
equals the sum of the input counts; and when the breakdown keys are
unique (as Python dict keys are), each input cell type appears, with its
original count, in the detail of exactly the category the taxonomy
assigns it, and in no other category. -/
theorem c3_classify_cells_conserves (b : List (String × Nat))
    (cats : List (String × Cat)) :
    (classify_cells b cats).1.seq + (classify_cells b cats).1.mem +
        (classify_cells b cats).1.comb + (classify_cells b cats).1.other =
      sumCounts b ∧
    ((b.map Prod.fst).Nodup → ∀ ty n, (ty, n) ∈ b →
      dget ((classify_cells b cats).2.ofCat (catOf cats ty)) ty = some n ∧
      ∀ c, c ≠ catOf cats ty →
        dget ((classify_cells b cats).2.ofCat c) ty = none) := by
  constructor
  · have := classifyGo_totals cats b {} {}
    simpa [classify_cells] using this
  · intro hnd ty n hmem
    have h := classifyGo_byType_mem cats b {} {} ty n hnd hmem
    refine ⟨h.1, fun c hc => ?_⟩
    rw [show (classify_cells b cats).2 = (classifyGo cats b {} {}).2 from rfl,
      h.2 c hc]
    cases c <;> rfl

/-- C3 witness: the conservation theorem applied at a concrete
breakdown and taxonomy. -/
theorem c3_classify_cells_conserves_witness :
    (classify_cells [("$_DFF_P_", 4), ("$_AND_", 6)]
          [("$_DFF_P_", Cat.seq), ("$_AND_", Cat.comb)]).1.seq +
        (classify_cells [("$_DFF_P_", 4), ("$_AND_", 6)]
          [("$_DFF_P_", Cat.seq), ("$_AND_", Cat.comb)]).1.mem +
        (classify_cells [("$_DFF_P_", 4), ("$_AND_", 6)]
          [("$_DFF_P_", Cat.seq), ("$_AND_", Cat.comb)]).1.comb +
        (classify_cells [("$_DFF_P_", 4), ("$_AND_", 6)]
          [("$_DFF_P_", Cat.seq), ("$_AND_", Cat.comb)]).1.other = 10 ∧
    dget ((classify_cells [("$_DFF_P_", 4), ("$_AND_", 6)]
          [("$_DFF_P_", Cat.seq), ("$_AND_", Cat.comb)]).2.ofCat
        (catOf [("$_DFF_P_", Cat.seq), ("$_AND_", Cat.comb)] "$_DFF_P_"))
      "$_DFF_P_" = some 4 := by
  constructor
  · rw [(c3_classify_cells_conserves [("$_DFF_P_", 4), ("$_AND_", 6)]
      [("$_DFF_P_", Cat.seq), ("$_AND_", Cat.comb)]).1]
    decide
  · exact ((c3_classify_cells_conserves [("$_DFF_P_", 4), ("$_AND_", 6)]
      [("$_DFF_P_", Cat.seq), ("$_AND_", Cat.comb)]).2 (by decide)
      "$_DFF_P_" 4 (by decide)).1

/-! ## C5: taxonomy acquisition failure degrades to all-"other" -/

theorem classifyGo_nil_cats_totals (b : List (String × Nat)) :
    ∀ (t : CellTotals) (bt : CellsByType),
      (classifyGo [] b t bt).1 =
        { seq := t.seq, mem := t.mem, comb := t.comb,
          other := t.other + sumCounts b } := by
  induction b with
  | nil => intro t bt; simp [classifyGo, sumCounts]
  | cons p rest ih =>
    intro t bt
    obtain ⟨ty, n⟩ := p
    simp only [classifyGo]
    rw [ih]
    have hcat : catOf [] ty = Cat.other := rfl
    rw [hcat]
    simp [CellTotals.bump, sumCounts]
    omega

theorem classifyGo_nil_cats_bt (b : List (String × Nat)) :
    ∀ (t : CellTotals) (bt : CellsByType),
      (classifyGo [] b t bt).2.seq = bt.seq ∧
      (classifyGo [] b t bt).2.mem = bt.mem ∧
      (classifyGo [] b t bt).2.comb = bt.comb := by
  induction b with
  | nil => intro t bt; exact ⟨rfl, rfl, rfl⟩
  | cons p rest ih =>
    intro t bt
    obtain ⟨ty, n⟩ := p
    simp only [classifyGo]
    have hcat : catOf [] ty = Cat.other := rfl
    rw [hcat]
    exact ih _ _

/-- C5: every modelled failure of taxonomy acquisition (process failure,
missing dump file, malformed structured output) makes dump_cell_groups
warn and return the empty mapping, and classifying any breakdown against
that empty taxonomy puts every cell type and its full count into
"other": seq, mem and comb totals are zero, their details are empty, the
other total is the whole input count, and (for unique keys) every input
pair is found in the other detail with its original count. -/
theorem c5_taxonomy_failure_all_other (o : DumpOutcome)
    (hfail : o.isFailure = true) :
    dump_cell_groups o = ([], true) ∧
    ∀ b : List (String × Nat),
      (classify_cells b (dump_cell_groups o).1).1.seq = 0 ∧
      (classify_cells b (dump_cell_groups o).1).1.mem = 0 ∧
      (classify_cells b (dump_cell_groups o).1).1.comb = 0 ∧
      (classify_cells b (dump_cell_groups o).1).1.other = sumCounts b ∧
      (classify_cells b (dump_cell_groups o).1).2.seq = [] ∧
      (classify_cells b (dump_cell_groups o).1).2.mem = [] ∧
      (classify_cells b (dump_cell_groups o).1).2.comb = [] ∧
      ((b.map Prod.fst).Nodup → ∀ ty n, (ty, n) ∈ b →
        dget (classify_cells b (dump_cell_groups o).1).2.other ty = some n) := by
  have hdump : dump_cell_groups o = ([], true) := by
    cases o with
    | ok groups => simp [DumpOutcome.isFailure] at hfail
    | processFailure => rfl
    | missingFile => rfl
    | malformedJson => rfl
  refine ⟨hdump, fun b => ?_⟩
  rw [hdump]
  have htot := classifyGo_nil_cats_totals b {} {}
  have hbt := classifyGo_nil_cats_bt b {} {}
  refine ⟨?_, ?_, ?_, ?_, hbt.1, hbt.2.1, hbt.2.2, ?_⟩
  · rw [show (classify_cells b []).1 = (classifyGo [] b {} {}).1 from rfl, htot]
  · rw [show (classify_cells b []).1 = (classifyGo [] b {} {}).1 from rfl, htot]
  · rw [show (classify_cells b []).1 = (classifyGo [] b {} {}).1 from rfl, htot]
  · rw [show (classify_cells b []).1 = (classifyGo [] b {} {}).1 from rfl, htot]
    simp
  · intro hnd ty n hmem
    have h := (classifyGo_byType_mem [] b {} {} ty n hnd hmem).1
    have hcat : catOf [] ty = Cat.other := rfl
    rw [hcat] at h
    exact h

/-- C5 witness: the degradation theorem applied at the missing-file
failure and a concrete breakdown. -/
theorem c5_taxonomy_failure_all_other_witness :
    dump_cell_groups DumpOutcome.missingFile = ([], true) ∧
    (classify_cells [("$_NOT_", 3)]
        (dump_cell_groups DumpOutcome.missingFile).1).1.other = 3 ∧
    (classify_cells [("$_NOT_", 3)]
        (dump_cell_groups DumpOutcome.missingFile).1).1.seq = 0 ∧
    dget (classify_cells [("$_NOT_", 3)]
        (dump_cell_groups DumpOutcome.missingFile).1).2.other "$_NOT_"
      = some 3 := by
  have h := c5_taxonomy_failure_all_other DumpOutcome.missingFile rfl
  refine ⟨h.1, ?_, (h.2 [("$_NOT_", 3)]).1, ?_⟩
  · rw [(h.2 [("$_NOT_", 3)]).2.2.2.1]
    decide
  · exact (h.2 [("$_NOT_", 3)]).2.2.2.2.2.2.2 (by decide) "$_NOT_" 3 (by decide)

/-! ## C8: the ff-mode area model -/

/-- C8: for every ff-mode run, ff_area is the sequential count times
ff_size, total_area is abc_area plus ff_area, and whenever total_area is
positive, ff_area_pct is ff_area over total_area times 100. -/
theorem c8_ff_area_model (tag : String) (output : List String)
    (cats : List (String × Cat)) (ff_size : Nat) (r : FFResult)
    (hr : r = run_mode_ff tag output cats ff_size) :
    r.ff_area = r.seq * ff_size ∧
    r.total_area = r.abc_area + r.ff_area ∧
    (0 < r.total_area →
      r.ff_area_pct = (r.ff_area : ℚ) / (r.total_area : ℚ) * 100) := by
  subst hr
  refine ⟨rfl, rfl, fun h => ?_⟩
  simp only [run_mode_ff] at h ⊢
  rw [if_pos h]

/-- C8 witness: the area model at a run with 10 sequential cells,
ff_size 6 and abc_area 50: ff_area 60, total_area 110, percentage
600/11 (approximately 54.5). -/
theorem c8_ff_area_model_witness :
    (run_mode_ff "d" ["Printing statistics.", "   $_DFF_P_      10", "and = 50"]
        [("$_DFF_P_", Cat.seq)] 6).seq = 10 ∧
    (run_mode_ff "d" ["Printing statistics.", "   $_DFF_P_      10", "and = 50"]
        [("$_DFF_P_", Cat.seq)] 6).abc_area = 50 ∧
    (run_mode_ff "d" ["Printing statistics.", "   $_DFF_P_      10", "and = 50"]
        [("$_DFF_P_", Cat.seq)] 6).ff_area = 60 ∧
    (run_mode_ff "d" ["Printing statistics.", "   $_DFF_P_      10", "and = 50"]
        [("$_DFF_P_", Cat.seq)] 6).total_area = 110 ∧
    (run_mode_ff "d" ["Printing statistics.", "   $_DFF_P_      10", "and = 50"]
        [("$_DFF_P_", Cat.seq)] 6).ff_area_pct = 600 / 11 := by
  have h := c8_ff_area_model "d"
    ["Printing statistics.", "   $_DFF_P_      10", "and = 50"]
    [("$_DFF_P_", Cat.seq)] 6 _ rfl
  have e1 : (run_mode_ff "d"
      ["Printing statistics.", "   $_DFF_P_      10", "and = 50"]
      [("$_DFF_P_", Cat.seq)] 6).ff_area = 60 := by decide
  have e2 : (run_mode_ff "d"
      ["Printing statistics.", "   $_DFF_P_      10", "and = 50"]
      [("$_DFF_P_", Cat.seq)] 6).total_area = 110 := by decide
  refine ⟨by decide, by decide, e1, e2, ?_⟩
  rw [h.2.2 (by rw [e2]; norm_num), e1, e2]
  norm_num

/-! ## C9: zero-valued metrics render like missing metrics -/

/-- C9: in tabular rendering a stored value of exactly zero renders as
the blank cell, byte-identical to the cell of a missing record, for all
three metrics and in both renderers (CsvOut and print_csv); a nonzero
value renders nonblank. -/
theorem c9_zero_renders_blank :
    timeCell (some 0) = "" ∧ timeCell none = "" ∧
    memCell (some 0) = "" ∧ memCell none = "" ∧
    cellsCell (some 0) = "" ∧ cellsCell none = "" ∧
    pcTimeCell (some { design := "d", yosys := "y", time := some 0 }) = "" ∧
    pcTimeCell none = "" ∧
    pcMemCell (some { design := "d", yosys := "y", mem_mb := some 0 }) = "" ∧
    pcCellsCell (some { design := "d", yosys := "y", cells := some 0 }) = "" ∧
    timeCell (some 1) = "1.00" ∧ memCell (some 1) = "1.0" ∧
    cellsCell (some 1) = "1" := by
  decide

/-! ## C10: no division by zero in ff mode -/

/-- C10: the ff-mode computation guards every division: a zero total
cell count reports ratio 0 and a zero total_area reports ff_area_pct 0;
and the human renderer emits the per-category percentage block only when
the total is positive, so a zero-total result prints no percentage
lines. -/
theorem c10_ff_zero_guards (tag : String) (output : List String)
    (cats : List (String × Cat)) (ff_size : Nat) (v : Bool) (r : FFResult)
    (hr : r = run_mode_ff tag output cats ff_size) :
    (r.total = 0 → r.ratio' = 0) ∧
    (r.total_area = 0 → r.ff_area_pct = 0) ∧
    (r.total = 0 → ffPctBlock r = [] ∧
      add_ff v r =
        ffHeaderLine r :: (ffAreaBlock r ++ ffVerboseBlock v r ++ [""])) := by
  refine ⟨fun h => ?_, fun h => ?_, fun h => ?_⟩
  · subst hr
    simp only [run_mode_ff] at h ⊢
    rw [if_neg (by omega)]
  · subst hr
    simp only [run_mode_ff] at h ⊢
    rw [if_neg (by omega)]
  · have hpct : ffPctBlock r = [] := by
      unfold ffPctBlock
      rw [if_neg (by omega)]
    refine ⟨hpct, ?_⟩
    unfold add_ff
    rw [hpct]
    rfl

/-- C10 witness: a run whose parsed section holds no cells at all, so
total and total_area are both zero: ratio and percentage are 0 and the
human output is just the header and the blank line. -/
theorem c10_ff_zero_guards_witness :
    (run_mode_ff "t" ["Printing statistics."] [] 6).ratio' = 0 ∧
    (run_mode_ff "t" ["Printing statistics."] [] 6).ff_area_pct = 0 ∧
    add_ff false (run_mode_ff "t" ["Printing statistics."] [] 6)
      = ["t: 0 cells", ""] := by
  have h := c10_ff_zero_guards "t" ["Printing statistics."] [] 6 false _ rfl
  refine ⟨h.1 (by decide), h.2.1 (by decide), ?_⟩
  rw [(h.2.2 (by decide)).2]
  decide

/-! ## C4: tabular rendering is sorted and deterministic -/

def recKey (s : AnalyzeStats) : String × String := (s.yosys, s.design)

def timeEntry (s : AnalyzeStats) : Option ((String × String) × ℚ) :=
  s.time.map (fun t => ((s.yosys, s.design), t))

def memEntry (s : AnalyzeStats) : Option ((String × String) × ℚ) :=
  s.mem_mb.map (fun m => ((s.yosys, s.design), m))

def cellsEntry (s : AnalyzeStats) : Option ((String × String) × Nat) :=
  s.cells.map (fun c => ((s.yosys, s.design), c))

theorem add_stats_time (st : CsvOutState) (s : AnalyzeStats) :
    (st.add_stats s).time =
      match s.time with
      | some t => dset st.time (s.yosys, s.design) t
      | none => st.time := by
  unfold CsvOutState.add_stats
  cases s.time <;> cases s.mem_mb <;> cases s.cells <;> rfl

theorem add_stats_memory (st : CsvOutState) (s : AnalyzeStats) :
    (st.add_stats s).memory =
      match s.mem_mb with
      | some m => dset st.memory (s.yosys, s.design) m
      | none => st.memory := by
  unfold CsvOutState.add_stats
  cases s.time <;> cases s.mem_mb <;> cases s.cells <;> rfl

theorem add_stats_cells (st : CsvOutState) (s : AnalyzeStats) :
    (st.add_stats s).cells =
      match s.cells with
      | some c => dset st.cells (s.yosys, s.design) c
      | none => st.cells := by
  unfold CsvOutState.add_stats
  cases s.time <;> cases s.mem_mb <;> cases s.cells <;> rfl

theorem collect_time (recs : List AnalyzeStats) :
    ∀ st : CsvOutState, (recs.map recKey).Nodup →
      (∀ s ∈ recs, recKey s ∉ st.time.map Prod.fst) →
      (recs.foldl CsvOutState.add_stats st).time =
        st.time ++ recs.filterMap timeEntry := by
  induction recs with
  | nil => intro st _ _; simp
  | cons s rest ih =>
    intro st hnd hdisj
    rw [List.map_cons] at hnd
    have hnd' := List.nodup_cons.mp hnd
    have hkey : recKey s ∉ st.time.map Prod.fst :=
      hdisj s (List.mem_cons_self s rest)
    have hstep : (st.add_stats s).time =
        st.time ++ (timeEntry s).toList := by
      rw [add_stats_time]
      cases hts : s.time with
      | none => simp [timeEntry, hts]
      | some t =>
        simp only [timeEntry, hts, Option.map_some, Option.toList_some]
        exact dset_append _ _ _ hkey
    have hdisj' : ∀ s' ∈ rest, recKey s' ∉ (st.add_stats s).time.map Prod.fst := by
      intro s' hs'
      rw [hstep, List.map_append, List.mem_append]
      push_neg
      refine ⟨hdisj s' (List.mem_cons_of_mem s hs'), ?_⟩
      intro hmem
      have : recKey s' = recKey s := by
        cases hts : s.time with
        | none => simp [timeEntry, hts] at hmem
        | some t =>
          simp [timeEntry, hts] at hmem
          exact hmem
      exact hnd'.1 (this ▸ List.mem_map.mpr ⟨s', hs', rfl⟩)
    calc (List.foldl CsvOutState.add_stats st (s :: rest)).time
        = (List.foldl CsvOutState.add_stats (st.add_stats s) rest).time := by
          rw [List.foldl_cons]
      _ = (st.add_stats s).time ++ rest.filterMap timeEntry :=
          ih (st.add_stats s) hnd'.2 hdisj'
      _ = st.time ++ (s :: rest).filterMap timeEntry := by
          rw [hstep, List.append_assoc]
          congr 1
          cases hts : s.time with
          | none => simp [List.filterMap_cons, timeEntry, hts]
          | some t => simp [List.filterMap_cons, timeEntry, hts]

theorem collect_memory (recs : List AnalyzeStats) :
    ∀ st : CsvOutState, (recs.map recKey).Nodup →
      (∀ s ∈ recs, recKey s ∉ st.memory.map Prod.fst) →
      (recs.foldl CsvOutState.add_stats st).memory =
        st.memory ++ recs.filterMap memEntry := by
  induction recs with
  | nil => intro st _ _; simp
  | cons s rest ih =>
    intro st hnd hdisj
    rw [List.map_cons] at hnd
    have hnd' := List.nodup_cons.mp hnd
    have hkey : recKey s ∉ st.memory.map Prod.fst :=
      hdisj s (List.mem_cons_self s rest)
    have hstep : (st.add_stats s).memory =
        st.memory ++ (memEntry s).toList := by
      rw [add_stats_memory]
      cases hts : s.mem_mb with
      | none => simp [memEntry, hts]
      | some m =>
        simp only [memEntry, hts, Option.map_some, Option.toList_some]
        exact dset_append _ _ _ hkey
    have hdisj' : ∀ s' ∈ rest, recKey s' ∉ (st.add_stats s).memory.map Prod.fst := by
      intro s' hs'
      rw [hstep, List.map_append, List.mem_append]
      push_neg
      refine ⟨hdisj s' (List.mem_cons_of_mem s hs'), ?_⟩
      intro hmem
      have : recKey s' = recKey s := by
        cases hts : s.mem_mb with
        | none => simp [memEntry, hts] at hmem
        | some m =>
          simp [memEntry, hts] at hmem
          exact hmem
      exact hnd'.1 (this ▸ List.mem_map.mpr ⟨s', hs', rfl⟩)
    calc (List.foldl CsvOutState.add_stats st (s :: rest)).memory
        = (List.foldl CsvOutState.add_stats (st.add_stats s) rest).memory := by
          rw [List.foldl_cons]
      _ = (st.add_stats s).memory ++ rest.filterMap memEntry :=
          ih (st.add_stats s) hnd'.2 hdisj'
      _ = st.memory ++ (s :: rest).filterMap memEntry := by
          rw [hstep, List.append_assoc]
          congr 1
          cases hts : s.mem_mb with
          | none => simp [List.filterMap_cons, memEntry, hts]
          | some m => simp [List.filterMap_cons, memEntry, hts]

theorem collect_cells (recs : List AnalyzeStats) :
    ∀ st : CsvOutState, (recs.map recKey).Nodup →
      (∀ s ∈ recs, recKey s ∉ st.cells.map Prod.fst) →
      (recs.foldl CsvOutState.add_stats st).cells =
        st.cells ++ recs.filterMap cellsEntry := by
  induction recs with
  | nil => intro st _ _; simp
  | cons s rest ih =>
    intro st hnd hdisj
    rw [List.map_cons] at hnd
    have hnd' := List.nodup_cons.mp hnd
    have hkey : recKey s ∉ st.cells.map Prod.fst :=
      hdisj s (List.mem_cons_self s rest)
    have hstep : (st.add_stats s).cells =
        st.cells ++ (cellsEntry s).toList := by
      rw [add_stats_cells]
      cases hts : s.cells with
      | none => simp [cellsEntry, hts]
      | some c =>
        simp only [cellsEntry, hts, Option.map_some, Option.toList_some]
        exact dset_append _ _ _ hkey
    have hdisj' : ∀ s' ∈ rest, recKey s' ∉ (st.add_stats s).cells.map Prod.fst := by
      intro s' hs'
      rw [hstep, List.map_append, List.mem_append]
      push_neg
      refine ⟨hdisj s' (List.mem_cons_of_mem s hs'), ?_⟩
      intro hmem
      have : recKey s' = recKey s := by
        cases hts : s.cells with
        | none => simp [cellsEntry, hts] at hmem
        | some c =>
          simp [cellsEntry, hts] at hmem
          exact hmem
      exact hnd'.1 (this ▸ List.mem_map.mpr ⟨s', hs', rfl⟩)
    calc (List.foldl CsvOutState.add_stats st (s :: rest)).cells
        = (List.foldl CsvOutState.add_stats (st.add_stats s) rest).cells := by
          rw [List.foldl_cons]
      _ = (st.add_stats s).cells ++ rest.filterMap cellsEntry :=
          ih (st.add_stats s) hnd'.2 hdisj'
      _ = st.cells ++ (s :: rest).filterMap cellsEntry := by
          rw [hstep, List.append_assoc]
          congr 1
          cases hts : s.cells with
          | none => simp [List.filterMap_cons, cellsEntry, hts]
          | some c => simp [List.filterMap_cons, cellsEntry, hts]

theorem keys_filterMap_sublist {β : Type}
    (f : AnalyzeStats → Option ((String × String) × β))
    (hf : ∀ s e, f s = some e → e.1 = recKey s) (recs : List AnalyzeStats) :
    ((recs.filterMap f).map Prod.fst).Sublist (recs.map recKey) := by
  induction recs with
  | nil => simp
  | cons s rest ih =>
    rw [List.filterMap_cons, List.map_cons]
    cases hfs : f s with
    | none => exact ih.cons _
    | some e =>
      rw [List.map_cons, hf s e hfs]
      exact ih.cons₂ _

theorem sortedStrs_perm {l1 l2 : List String} (h : l1.Perm l2) :
    sortedStrs l1 = sortedStrs l2 := by
  unfold sortedStrs
  exact List.eq_of_perm_of_sorted
    ((List.perm_insertionSort strLe l1.dedup).trans
      (h.dedup.trans (List.perm_insertionSort strLe l2.dedup).symm))
    (List.sorted_insertionSort strLe l1.dedup)
    (List.sorted_insertionSort strLe l2.dedup)

theorem perm_isEmpty {β : Type} {l1 l2 : List β} (h : l1.Perm l2) :
    l1.isEmpty = l2.isEmpty := by
  cases l1 with
  | nil => rw [h.symm.eq_nil]
  | cons a t =>
    cases l2 with
    | nil => exact absurd h.eq_nil (by simp)
    | cons b u => rfl

theorem out_congr (st1 st2 : CsvOutState)
    (ht : st1.time.Perm st2.time) (hm : st1.memory.Perm st2.memory)
    (hc : st1.cells.Perm st2.cells)
    (ndt : (st1.time.map Prod.fst).Nodup)
    (ndm : (st1.memory.map Prod.fst).Nodup)
    (ndc : (st1.cells.map Prod.fst).Nodup) :
    st1.out = st2.out := by
  have hty : st1.yosyes = st2.yosyes := by
    unfold CsvOutState.yosyes
    exact sortedStrs_perm (ht.map _)
  have htd : st1.designs = st2.designs := by
    unfold CsvOutState.designs
    exact sortedStrs_perm (ht.map _)
  have f1 : (fun ys d => timeCell (dget st1.time (ys, d))) =
      (fun ys d => timeCell (dget st2.time (ys, d))) :=
    funext fun ys => funext fun d => by rw [dget_eq_of_perm ht ndt]
  have f2 : (fun ys d => memCell (dget st1.memory (ys, d))) =
      (fun ys d => memCell (dget st2.memory (ys, d))) :=
    funext fun ys => funext fun d => by rw [dget_eq_of_perm hm ndm]
  have f3 : (fun ys d => cellsCell (dget st1.cells (ys, d))) =
      (fun ys d => cellsCell (dget st2.cells (ys, d))) :=
    funext fun ys => funext fun d => by rw [dget_eq_of_perm hc ndc]
  have e1 : st1.time.isEmpty = st2.time.isEmpty := perm_isEmpty ht
  have e2 : st1.memory.isEmpty = st2.memory.isEmpty := perm_isEmpty hm
  have e3 : st1.cells.isEmpty = st2.cells.isEmpty := perm_isEmpty hc
  unfold CsvOutState.out
  rw [e1, e2, e3, hty, htd, f1, f2, f3]

/-- C4 (amended): thing.py's CsvOut renders deterministically from the
collected record set: permuting the incoming records (whose
(yosys, design) keys are unique) leaves the rendered output
byte-identical, and the rendered binary columns and design rows iterate
in lexicographically sorted order. -/
theorem c4_csv_out_sorted_deterministic (recs1 recs2 : List AnalyzeStats)
    (hnd : (recs1.map recKey).Nodup) (hperm : recs1.Perm recs2) :
    (collectStats recs1).out = (collectStats recs2).out ∧
    List.Sorted strLe (collectStats recs1).yosyes ∧
    List.Sorted strLe (collectStats recs1).designs := by
  have hnd2 : (recs2.map recKey).Nodup := ((hperm.map recKey).nodup_iff).mp hnd
  have hft : ∀ (s : AnalyzeStats) (e : (String × String) × ℚ),
      timeEntry s = some e → e.1 = recKey s := by
    intro s e he
    cases hts : s.time with
    | none => simp [timeEntry, hts] at he
    | some t =>
      unfold timeEntry at he
      rw [hts] at he
      rw [← Option.some.inj he]
      rfl
  have hfm : ∀ (s : AnalyzeStats) (e : (String × String) × ℚ),
      memEntry s = some e → e.1 = recKey s := by
    intro s e he
    cases hts : s.mem_mb with
    | none => simp [memEntry, hts] at he
    | some m =>
      unfold memEntry at he
      rw [hts] at he
      rw [← Option.some.inj he]
      rfl
  have hfc : ∀ (s : AnalyzeStats) (e : (String × String) × Nat),
      cellsEntry s = some e → e.1 = recKey s := by
    intro s e he
    cases hts : s.cells with
    | none => simp [cellsEntry, hts] at he
    | some c =>
      unfold cellsEntry at he
      rw [hts] at he
      rw [← Option.some.inj he]
      rfl
  have hct1 : (collectStats recs1).time = recs1.filterMap timeEntry := by
    have := collect_time recs1 {} hnd (by intro s _; simp)
    simpa [collectStats] using this
  have hct2 : (collectStats recs2).time = recs2.filterMap timeEntry := by
    have := collect_time recs2 {} hnd2 (by intro s _; simp)
    simpa [collectStats] using this
  have hcm1 : (collectStats recs1).memory = recs1.filterMap memEntry := by
    have := collect_memory recs1 {} hnd (by intro s _; simp)
    simpa [collectStats] using this
  have hcm2 : (collectStats recs2).memory = recs2.filterMap memEntry := by
    have := collect_memory recs2 {} hnd2 (by intro s _; simp)
    simpa [collectStats] using this
  have hcc1 : (collectStats recs1).cells = recs1.filterMap cellsEntry := by
    have := collect_cells recs1 {} hnd (by intro s _; simp)
    simpa [collectStats] using this
  have hcc2 : (collectStats recs2).cells = recs2.filterMap cellsEntry := by
    have := collect_cells recs2 {} hnd2 (by intro s _; simp)
    simpa [collectStats] using this
  refine ⟨?_, ?_, ?_⟩
  · apply out_congr
    · rw [hct1, hct2]; exact hperm.filterMap _
    · rw [hcm1, hcm2]; exact hperm.filterMap _
    · rw [hcc1, hcc2]; exact hperm.filterMap _
    · rw [hct1]; exact (keys_filterMap_sublist timeEntry hft recs1).nodup hnd
    · rw [hcm1]; exact (keys_filterMap_sublist memEntry hfm recs1).nodup hnd
    · rw [hcc1]; exact (keys_filterMap_sublist cellsEntry hfc recs1).nodup hnd
  · simp only [CsvOutState.yosyes, sortedStrs]
    exact List.sorted_insertionSort strLe _
  · simp only [CsvOutState.designs, sortedStrs]
    exact List.sorted_insertionSort strLe _

/-- C4 witness: the determinism applied at two orderings of a concrete
record set, together with the rendered output, whose column order is
a/y1 before b/y2 and whose row order is bar before foo. -/
theorem c4_csv_out_sorted_deterministic_witness :
    (collectStats
          [{ design := "foo", yosys := "b/y2", time := some 2, mem_mb := some (mkRat 41 2) },
           { design := "bar", yosys := "b/y2", time := some 1, mem_mb := some (mkRat 21 2) },
           { design := "foo", yosys := "a/y1", time := some 4, mem_mb := some (mkRat 81 2) },
           { design := "bar", yosys := "a/y1", time := some 3, mem_mb := some (mkRat 61 2) }]).out =
      (collectStats
          [{ design := "bar", yosys := "a/y1", time := some 3, mem_mb := some (mkRat 61 2) },
           { design := "foo", yosys := "a/y1", time := some 4, mem_mb := some (mkRat 81 2) },
           { design := "bar", yosys := "b/y2", time := some 1, mem_mb := some (mkRat 21 2) },
           { design := "foo", yosys := "b/y2", time := some 2, mem_mb := some (mkRat 41 2) }]).out ∧
    (collectStats
          [{ design := "foo", yosys := "b/y2", time := some 2, mem_mb := some (mkRat 41 2) },
           { design := "bar", yosys := "b/y2", time := some 1, mem_mb := some (mkRat 21 2) },
           { design := "foo", yosys := "a/y1", time := some 4, mem_mb := some (mkRat 81 2) },
           { design := "bar", yosys := "a/y1", time := some 3, mem_mb := some (mkRat 61 2) }]).out =
      ["time", "design;a/y1;b/y2;", "bar;3.00;1.00;", "foo;4.00;2.00;", "",
       "memory", "design;a/y1;b/y2;", "bar;30.5;10.5;", "foo;40.5;20.5;"] := by
  constructor
  · exact (c4_csv_out_sorted_deterministic _ _ (by decide) (by decide)).1
  · decide

/-- C4 counterexample: analyze.py print_csv renders the binary columns
in the caller-supplied order, not sorted: for binaries
["b/y2", "a/y1"] the header places b/y2 before a/y1, contradicting the
claim that column a/y1 precedes b/y2 for every renderer. -/
theorem c4_print_csv_columns_unsorted :
    (print_csv
        [{ design := "foo", yosys := "b/y2", time := some 1 },
         { design := "foo", yosys := "a/y1", time := some 2 }]
        ["b/y2", "a/y1"])[1]? = some ("design\tb/y2\ta/y1\t") ∧
    ("design\tb/y2\ta/y1\t" : String) ≠ "design\ta/y1\tb/y2\t" := by
  refine ⟨by decide, by decide⟩

end YP
